import Mathlib

/-!
Shallow embedding of `qbittorrent-orphan-cleaner.py`.

The script builds a set of "active" (live) absolute file paths from the
torrent daemon's metadata, walks the download directory, classifies every
regular file whose full path is not in the active set as orphaned,
sorts the orphan list by size descending, writes a report file, and
optionally deletes the orphaned files.

All paths are POSIX-style strings; `pjoin` embeds `os.path.join` (two
arguments, POSIX semantics) and `dirname` embeds `os.path.dirname`.
The filesystem is a finite tree `FSTree`; `walkFrom` embeds the sequence
of `(full_path, size)` pairs that the `os.walk` loop of `scan_torrents`
visits (a `none` size models `os.path.getsize` raising `OSError`).
-/

namespace OrphanCleaner

/-- Does the string start with the separator character, as Python's
`startswith('/')` tests. -/
def headIsSlash (s : String) : Bool :=
  match s.data with
  | [] => false
  | c :: _ => c = '/'

/-- Does the string end with the separator character, as Python's
`endswith('/')` tests. -/
def lastIsSlash (s : String) : Bool :=
  match s.data.getLast? with
  | some c => c = '/'
  | none => false

/-- Embeds POSIX `os.path.join(a, b)` for the two-argument calls used by the
script: an absolute second component replaces the first, otherwise the parts
are concatenated with a separator inserted unless one is already present. -/
def pjoin (a b : String) : String :=
  if headIsSlash b then b
  else if a = "" || lastIsSlash a then a ++ b
  else a ++ "/" ++ b

/-- Embeds lines 97-99 of `get_connection_info`: the download directory is
given a trailing slash if it does not already end with one. -/
def ensureSlash (s : String) : String :=
  if lastIsSlash s then s else s ++ "/"

/-- Embeds POSIX `os.path.dirname` on a character list: everything up to and
including the last separator, with trailing separators stripped unless the
head consists of separators only. -/
def dirnameL (l : List Char) : List Char :=
  let i := l.length - (l.reverse.takeWhile (fun c => c ≠ '/')).length
  let head := l.take i
  if head ≠ [] ∧ head.any (fun c => c ≠ '/') then
    ((head.reverse.dropWhile (fun c => c = '/')).reverse)
  else head

/-- Embeds POSIX `os.path.dirname` on strings. -/
def dirname (p : String) : String := ⟨dirnameL p.data⟩

/-- Embeds `set.add` on a set modelled as a duplicate-free list: the element
is appended when not already present. -/
def sadd (s : List String) (x : String) : List String :=
  if x ∈ s then s else s ++ [x]

/-- Embeds the `while parent and parent != save_path` loop of lines 166-169,
which climbs `dirname` from a file's parent towards the save path, adding each
level to `active_dirs`. The fuel argument bounds the iteration count; with
fuel larger than the starting string's length it reproduces every terminating
run of the Python loop, since each productive `dirname` step strictly shortens
the string. -/
def ancestorLoop : Nat → String → String → List String → List String
  | 0, _, _, acc => acc
  | fuel + 1, parent, save_path, acc =>
    if parent ≠ "" ∧ parent ≠ save_path then
      ancestorLoop fuel (dirname parent) save_path (sadd acc parent)
    else acc

/-- Ancestor-directory tracking for one live file (lines 165-169). -/
def addAncestors (file_path save_path : String) (dirs : List String) : List String :=
  ancestorLoop (file_path.length + 1) (dirname file_path) save_path dirs

/-- One torrent as the script reads it from the daemon: its save path, its
name (used in diagnostics), and its file list; `files = none` models the
`torrent.files` access raising, the failure caught at lines 170-171. -/
structure Torrent where
  save_path : String
  name : String
  files : Option (List String)
deriving Repr, DecidableEq

/-- State accumulated by the torrent loop of `scan_torrents` (lines 144-171):
the live file set, the live ancestor-directory set, and the warnings printed
for torrents whose file list could not be fetched. -/
structure ActiveState where
  active_files : List String
  active_dirs : List String
  warnings : List String
deriving Repr, DecidableEq

/-- Embeds lines 162-169 for a single file entry of a torrent. -/
def addFile (save_path : String) (st : ActiveState) (fn : String) : ActiveState :=
  let fp := pjoin save_path fn
  { st with
    active_files := sadd st.active_files fp
    active_dirs := addAncestors fp save_path st.active_dirs }

/-- Embeds the body of the torrent loop (lines 152-171): on a file-list
failure the torrent is skipped and a warning recorded; otherwise every file
is joined onto the save path and inserted. -/
def addTorrent (st : ActiveState) (t : Torrent) : ActiveState :=
  match t.files with
  | none => { st with warnings := st.warnings ++ [t.name] }
  | some fs => fs.foldl (addFile t.save_path) st

/-- Embeds the whole live-set construction of `scan_torrents`
(lines 144-171). -/
def buildActive (ts : List Torrent) : ActiveState :=
  ts.foldl addTorrent ⟨[], [], []⟩

/-- The multiset of joined `(savePath, relativeFile)` paths of the torrents
whose file list is available; membership in it characterises membership in
`(buildActive ts).active_files`. -/
def liveJoins (ts : List Torrent) : List String :=
  ts.flatMap fun t =>
    match t.files with
    | none => []
    | some fs => fs.map (pjoin t.save_path)

/-- A finite filesystem tree: a regular file with a readable size (`some n`)
or an unreadable one (`none`, modelling `os.path.getsize` raising `OSError`),
or a directory of named entries in listing order. -/
inductive FSTree where
  | file (size : Option Nat)
  | dir (entries : List (String × FSTree))

/-- Embeds the `os.walk` traversal of lines 191-197: the sequence of
`(full_path, size)` pairs visited, in order; each directory contributes its
regular files first (paths formed by `pjoin root name`, exactly as line 197),
then its subdirectories are walked recursively with roots formed the same
way. Walking a non-directory yields nothing, as `os.walk` does. -/
def walkFrom (root : String) (t : FSTree) : List (String × Option Nat) :=
  match t with
  | .file _ => []
  | .dir es =>
    (es.filterMap fun e =>
      match e.2 with
      | .file sz => some (pjoin root e.1, sz)
      | .dir _ => none)
    ++ es.attach.flatMap fun e =>
        walkFrom (pjoin root e.val.1) e.val.2
termination_by sizeOf t
decreasing_by
  rcases e with ⟨⟨n, c⟩, hmem⟩
  have h := List.sizeOf_lt_of_mem hmem
  simp only [Prod.mk.sizeOf_spec] at h
  simp only [FSTree.dir.sizeOf_spec]
  omega

/-- State accumulated by the walk loop of `scan_torrents` (lines 180-206):
the orphan list in discovery order, the running total size, and the warnings
printed for files whose size could not be read. -/
structure ScanState where
  orphaned_files : List (String × Nat)
  total_orphaned_size : Nat
  size_warnings : List String
deriving Repr, DecidableEq

/-- Embeds lines 197-206 for one walked file: a file whose full path is in
the active set is skipped; otherwise it is appended to the orphan list with
its size (the total increased accordingly), or with size 0 plus a warning
when the size read fails. -/
def scanStep (active_files : List String) (st : ScanState) (e : String × Option Nat) :
    ScanState :=
  if e.1 ∈ active_files then st
  else
    match e.2 with
    | some n =>
      { st with
        orphaned_files := st.orphaned_files ++ [(e.1, n)]
        total_orphaned_size := st.total_orphaned_size + n }
    | none =>
      { st with
        orphaned_files := st.orphaned_files ++ [(e.1, 0)]
        size_warnings := st.size_warnings ++ [e.1] }

/-- Embeds the whole walk phase of `scan_torrents` (lines 189-206): the
`os.walk` loop folded over the visited files. -/
def scanWalk (active_files : List String) (download_dir : String) (t : FSTree) : ScanState :=
  (walkFrom download_dir t).foldl (scanStep active_files) ⟨[], 0, []⟩

/-- The daemon client as `scan_torrents` uses it: `torrents_info = none`
models `qbt_client.torrents_info()` raising (caught at lines 175-177). -/
structure QbtClient where
  torrents_info : Option (List Torrent)

/-- Embeds `scan_torrents` (lines 142-218). The filesystem argument is
`none` when `download_dir` does not exist (`os.path.exists` false at line
185). A `none` result models the `return None, None` error paths; note that
the missing-directory branch (lines 185-187) returns
`some ([], 0)` — the empty orphan list with zero total — not `none`. -/
def scan_torrents (qbt_client : QbtClient) (download_dir : String) (fs : Option FSTree) :
    Option (List (String × Nat) × Nat) :=
  match qbt_client.torrents_info with
  | none => none
  | some ts =>
    let st := buildActive ts
    match fs with
    | none => some ([], 0)
    | some t =>
      let r := scanWalk st.active_files download_dir t
      some (r.orphaned_files, r.total_orphaned_size)

/-- Embeds line 253, `orphaned_files.sort(key=lambda x: x[1], reverse=True)`:
a stable sort by size descending. -/
def sortBySizeDesc (l : List (String × Nat)) : List (String × Nat) :=
  l.mergeSort fun a b => decide (b.2 ≤ a.2)

/-- Embeds the exit behaviour of `main` around the scan (lines 239-250 and
the normal fall-through to `sys.exit`-less termination): a failed connection
or a `None` scan result exits with code 1, anything else finishes the run
with code 0. -/
def mainScanExitCode (qbt_client : Option QbtClient) (download_dir : String)
    (fs : Option FSTree) : Nat :=
  match qbt_client with
  | none => 1
  | some c =>
    match scan_torrents c download_dir fs with
    | none => 1
    | some _ => 0

/-- Tally kept by the deletion loop of `main` (lines 296-310). -/
structure DeletionOutcome where
  deleted_count : Nat
  deleted_size : Nat
  failed_count : Nat
deriving Repr, DecidableEq

/-- Embeds lines 301-310 for one orphan entry: `ok` tells whether
`os.remove` succeeds on that path; a success bumps the deleted count and
adds the entry's recorded size, a failure bumps the failed count. -/
def deleteStep (ok : String → Bool) (st : DeletionOutcome) (e : String × Nat) :
    DeletionOutcome :=
  if ok e.1 then
    { st with deleted_count := st.deleted_count + 1, deleted_size := st.deleted_size + e.2 }
  else
    { st with failed_count := st.failed_count + 1 }

/-- Embeds the whole deletion loop (lines 296-310): every entry of the
orphan list is attempted in order, independently. -/
def deleteAll (ok : String → Bool) (entries : List (String × Nat)) : DeletionOutcome :=
  entries.foldl (deleteStep ok) ⟨0, 0, 0⟩

/-- Worker for `replaceAllL`, structurally recursive on a fuel argument;
every step consumes at least one character of the subject, so fuel equal to
the subject's length makes the fuel bound unreachable. -/
def replaceAllF (pat : List Char) : Nat → List Char → List Char
  | _, [] => []
  | 0, s => s
  | fuel + 1, c :: rest =>
    if pat.isPrefixOf (c :: rest) ∧ pat ≠ [] then
      replaceAllF pat fuel ((c :: rest).drop pat.length)
    else c :: replaceAllF pat fuel rest

/-- Embeds Python `s.replace(pattern, "")` on character lists: all
non-overlapping occurrences of `pattern`, scanned left to right, are
removed. -/
def replaceAllL (pat s : List Char) : List Char :=
  replaceAllF pat s.length s

/-- Embeds `file_path.replace(download_dir, '')` (lines 267 and 284): the
display path is the file path with every occurrence of the download
directory string removed. -/
def displayPath (download_dir file_path : String) : String :=
  ⟨replaceAllL download_dir.data file_path.data⟩

/-- One entry line of the persisted report (line 285): the recorded size
(rendered by `format_bytes`, kept here as the number itself) and the
display path. -/
structure ReportLine where
  sizeBytes : Nat
  shownPath : String
deriving Repr, DecidableEq

/-- The persisted report file (lines 276-285), kept structured: the header
lines (generation header, download directory, total file count, total size)
followed by one line per orphan entry in list order. -/
structure Report where
  downloadDir : String
  totalFiles : Nat
  totalSizeBytes : Nat
  entries : List ReportLine
deriving Repr, DecidableEq

/-- Embeds the report-writing block of `main` (lines 274-285). -/
def buildReport (download_dir : String) (orphaned_files : List (String × Nat))
    (total_orphaned_size : Nat) : Report :=
  { downloadDir := download_dir
    totalFiles := orphaned_files.length
    totalSizeBytes := total_orphaned_size
    entries := orphaned_files.map fun e => ⟨e.2, displayPath download_dir e.1⟩ }

/-- Embeds `open(output_file, 'w')` (line 276): the file is truncated, so
the written report is a function of this run only, never of the previous
file content. -/
def writeReportFile (_previousContent : Option Report) (download_dir : String)
    (orphaned_files : List (String × Nat)) (total_orphaned_size : Nat) : Report :=
  buildReport download_dir orphaned_files total_orphaned_size

/-- Splits a character list at every separator character. -/
def splitSlash : List Char → List (List Char)
  | [] => [[]]
  | c :: rest =>
    if c = '/' then [] :: splitSlash rest
    else
      match splitSlash rest with
      | [] => [[c]]
      | s :: ss => (c :: s) :: ss

/-- Interleaves a separator character between segments. -/
def joinSlash : List (List Char) → List Char
  | [] => []
  | [s] => s
  | s :: rest => s ++ '/' :: joinSlash rest

/-- Modelled from the spec: the canonical normal form of a path that the
spec's classification property quantifies over — redundant `./` segments
and duplicate or trailing separators are removed, absoluteness is kept.
The source contains no such normalization; this definition exists only to
state the spec's property against the code. -/
def specNormalize (p : String) : String :=
  let segs := (splitSlash p.data).filter fun s => s ≠ [] ∧ s ≠ ['.']
  ⟨(if headIsSlash p then ['/'] else []) ++ joinSlash segs⟩

/-- Modelled from the spec: the path of an orphan entry "made relative to
the target directory" — the suffix left after removing the target-directory
prefix. -/
def specRelativeTo (download_dir file_path : String) : String :=
  if download_dir.data.isPrefixOf file_path.data then
    ⟨file_path.data.drop download_dir.data.length⟩
  else file_path

/-- Does `pat` occur as a contiguous substring of `s`, scanning left to
right (Python's `pat in s`). -/
def containsSub (pat : List Char) : List Char → Bool
  | [] => pat.isPrefixOf []
  | c :: rest => pat.isPrefixOf (c :: rest) || containsSub pat rest

/-- Well-formedness of a filesystem tree as real directory listings produce
it: no entry name begins with a separator (`os.walk` yields bare entry
names, which never contain `/`). -/
inductive NoAbsNames : FSTree → Prop where
  | file (sz : Option Nat) : NoAbsNames (.file sz)
  | dir (es : List (String × FSTree))
      (hn : ∀ e ∈ es, headIsSlash e.1 = false)
      (ht : ∀ e ∈ es, NoAbsNames e.2) : NoAbsNames (.dir es)

/-! ### Equation lemmas and characterizations -/

theorem walkFrom_file (root : String) (sz : Option Nat) : walkFrom root (.file sz) = [] := by
  simp [walkFrom]

theorem walkFrom_dir (root : String) (es : List (String × FSTree)) :
    walkFrom root (.dir es) =
      (es.filterMap fun e =>
        match e.2 with
        | .file sz => some (pjoin root e.1, sz)
        | .dir _ => none)
      ++ es.flatMap fun e => walkFrom (pjoin root e.1) e.2 := by
  rw [walkFrom]
  congr 1
  rw [List.flatMap_subtype, List.unattach_attach]
  exact fun x h => rfl

theorem mem_sadd (s : List String) (x p : String) : p ∈ sadd s x ↔ p ∈ s ∨ p = x := by
  unfold sadd
  split
  · constructor
    · exact fun h => Or.inl h
    · rintro (h | rfl) <;> assumption
  · simp

theorem addFile_foldl_active_files (fs : List String) (sp : String) (st : ActiveState)
    (p : String) :
    p ∈ (fs.foldl (addFile sp) st).active_files ↔
      p ∈ st.active_files ∨ p ∈ fs.map (pjoin sp) := by
  induction fs generalizing st with
  | nil => simp
  | cons fn rest ih =>
    simp only [List.foldl_cons, List.map_cons, List.mem_cons]
    rw [ih]
    unfold addFile
    simp only [mem_sadd]
    tauto

theorem mem_buildActive_aux (ts : List Torrent) (st : ActiveState) (p : String) :
    p ∈ (ts.foldl addTorrent st).active_files ↔
      p ∈ st.active_files ∨ p ∈ liveJoins ts := by
  induction ts generalizing st with
  | nil => simp [liveJoins]
  | cons t rest ih =>
    simp only [List.foldl_cons, liveJoins, List.flatMap_cons, List.mem_append]
    rw [ih]
    unfold addTorrent
    cases h : t.files with
    | none => simp [liveJoins]
    | some fs =>
      rw [addFile_foldl_active_files]
      simp only [liveJoins]
      tauto

/-- Membership in the live file set is exactly membership in the joined
`(savePath, relativeFile)` paths of the fetchable torrents. -/
theorem mem_buildActive (ts : List Torrent) (p : String) :
    p ∈ (buildActive ts).active_files ↔ p ∈ liveJoins ts := by
  rw [buildActive, mem_buildActive_aux]
  simp

theorem foldl_scanStep (a : List String) (l : List (String × Option Nat)) (st : ScanState) :
    l.foldl (scanStep a) st =
      ⟨st.orphaned_files ++
        ((l.filter fun e => decide (e.1 ∉ a)).map fun e => (e.1, e.2.getD 0)),
       st.total_orphaned_size +
        ((l.filter fun e => decide (e.1 ∉ a)).map fun e => e.2.getD 0).sum,
       st.size_warnings ++
        ((l.filter fun e => decide (e.1 ∉ a) && e.2.isNone).map fun e => e.1)⟩ := by
  induction l generalizing st with
  | nil => simp
  | cons e rest ih =>
    simp only [List.foldl_cons]
    rw [ih]
    unfold scanStep
    by_cases hm : e.1 ∈ a
    · simp [hm]
    · cases hsz : e.2 with
      | some n =>
        simp [hm, hsz, List.filter_cons, Nat.add_assoc]
      | none =>
        simp [hm, hsz, List.filter_cons]

/-- The orphan list of the walk phase: the walked files whose full path is
not live, each with its recorded size (0 when unreadable). -/
theorem scanWalk_orphaned (a : List String) (dd : String) (t : FSTree) :
    (scanWalk a dd t).orphaned_files =
      ((walkFrom dd t).filter fun e => decide (e.1 ∉ a)).map fun e => (e.1, e.2.getD 0) := by
  rw [scanWalk, foldl_scanStep]
  simp

/-- The running total of the walk phase is the sum of the recorded sizes. -/
theorem scanWalk_total (a : List String) (dd : String) (t : FSTree) :
    (scanWalk a dd t).total_orphaned_size =
      (((walkFrom dd t).filter fun e => decide (e.1 ∉ a)).map
        fun e => e.2.getD 0).sum := by
  rw [scanWalk, foldl_scanStep]
  simp

/-- The size warnings of the walk phase: the orphaned files whose size read
failed. -/
theorem scanWalk_warnings (a : List String) (dd : String) (t : FSTree) :
    (scanWalk a dd t).size_warnings =
      ((walkFrom dd t).filter fun e => decide (e.1 ∉ a) && e.2.isNone).map fun e => e.1 := by
  rw [scanWalk, foldl_scanStep]
  simp

/-- The walk phase of a successful scan, as `scan_torrents` returns it. -/
theorem scan_torrents_some (ts : List Torrent) (dd : String) (t : FSTree) :
    scan_torrents ⟨some ts⟩ dd (some t) =
      some ((scanWalk (buildActive ts).active_files dd t).orphaned_files,
            (scanWalk (buildActive ts).active_files dd t).total_orphaned_size) := rfl

theorem addFile_eq (sp : String) (st : ActiveState) (fn : String) :
    addFile sp st fn =
      ⟨sadd st.active_files (pjoin sp fn),
       addAncestors (pjoin sp fn) sp st.active_dirs, st.warnings⟩ := rfl

theorem addTorrent_none (st : ActiveState) (t : Torrent) (hf : t.files = none) :
    addTorrent st t = ⟨st.active_files, st.active_dirs, st.warnings ++ [t.name]⟩ := by
  unfold addTorrent
  rw [hf]

theorem addTorrent_some (st : ActiveState) (t : Torrent) (fs : List String)
    (hf : t.files = some fs) :
    addTorrent st t = fs.foldl (addFile t.save_path) st := by
  unfold addTorrent
  rw [hf]

theorem addFile_foldl_eq (fs : List String) (sp : String) (f d w : List String) :
    fs.foldl (addFile sp) ⟨f, d, w⟩ =
      ⟨(fs.foldl (addFile sp) ⟨f, d, []⟩).active_files,
       (fs.foldl (addFile sp) ⟨f, d, []⟩).active_dirs, w⟩ := by
  induction fs generalizing f d with
  | nil => simp
  | cons fn rest ih =>
    simp only [List.foldl_cons, addFile_eq]
    rw [ih]

theorem addTorrent_foldl_eq (ts : List Torrent) (f d w : List String) :
    ts.foldl addTorrent ⟨f, d, w⟩ =
      ⟨(ts.foldl addTorrent ⟨f, d, []⟩).active_files,
       (ts.foldl addTorrent ⟨f, d, []⟩).active_dirs,
       w ++ (ts.foldl addTorrent ⟨f, d, []⟩).warnings⟩ := by
  induction ts generalizing f d w with
  | nil => simp
  | cons t rest ih =>
    simp only [List.foldl_cons]
    cases hf : t.files with
    | none =>
      rw [addTorrent_none _ _ hf, addTorrent_none _ _ hf]
      simp only [List.nil_append]
      rw [ih f d (w ++ [t.name]), ih f d [t.name]]
      simp [List.append_assoc]
    | some fs =>
      rw [addTorrent_some _ _ _ hf, addTorrent_some _ _ _ hf, addFile_foldl_eq,
        addFile_foldl_eq, ih]

theorem liveJoins_append (ts1 ts2 : List Torrent) :
    liveJoins (ts1 ++ ts2) = liveJoins ts1 ++ liveJoins ts2 := by
  simp [liveJoins]

theorem deleteStep_foldl (ok : String → Bool) (l : List (String × Nat)) (st : DeletionOutcome) :
    l.foldl (deleteStep ok) st =
      ⟨st.deleted_count + (l.filter fun e => ok e.1).length,
       st.deleted_size + ((l.filter fun e => ok e.1).map fun e => e.2).sum,
       st.failed_count + (l.filter fun e => !ok e.1).length⟩ := by
  induction l generalizing st with
  | nil => simp
  | cons e rest ih =>
    simp only [List.foldl_cons]
    rw [ih]
    unfold deleteStep
    cases hok : ok e.1 with
    | true =>
      simp [hok, List.filter_cons, Nat.add_assoc]
      omega
    | false =>
      simp [hok, List.filter_cons, Nat.add_assoc]
      omega

theorem length_filter_add_length_filter_not (p : α → Bool) (l : List α) :
    (l.filter p).length + (l.filter fun a => !p a).length = l.length := by
  induction l with
  | nil => simp
  | cons a rest ih =>
    cases h : p a <;> simp [List.filter_cons, h] <;> omega

theorem lastIsSlash_ensureSlash (s : String) : lastIsSlash (ensureSlash s) = true := by
  unfold ensureSlash
  split
  · assumption
  · unfold lastIsSlash
    rw [String.data_append]
    rw [show ("/" : String).data = ['/'] from rfl, List.getLast?_concat]
    rfl

theorem data_prefix_pjoin (a b : String) (hb : headIsSlash b = false) :
    a.data <+: (pjoin a b).data := by
  unfold pjoin
  rw [hb]
  simp only [Bool.false_eq_true, if_false]
  split
  · rw [String.data_append]
    exact List.prefix_append _ _
  · rw [String.data_append, String.data_append]
    rw [List.append_assoc]
    exact List.prefix_append _ _

theorem prefix_of_walkFrom (t : FSTree) (h : NoAbsNames t) :
    ∀ root : String, ∀ pe ∈ walkFrom root t, root.data <+: pe.1.data := by
  induction h with
  | file sz =>
    intro root pe hpe
    rw [walkFrom_file] at hpe
    exact absurd hpe (List.not_mem_nil pe)
  | dir es hn ht ih =>
    intro root pe hpe
    rw [walkFrom_dir] at hpe
    rcases List.mem_append.mp hpe with hL | hR
    · rcases List.mem_filterMap.mp hL with ⟨e, he, heq⟩
      cases hc : e.2 with
      | file sz =>
        rw [hc] at heq
        simp only [Option.some.injEq] at heq
        have : pe.1 = pjoin root e.1 := by rw [← heq]
        rw [this]
        exact data_prefix_pjoin root e.1 (hn e he)
      | dir es' =>
        rw [hc] at heq
        simp at heq
    · rcases List.mem_flatMap.mp hR with ⟨e, he, hpe'⟩
      have h1 : (pjoin root e.1).data <+: pe.1.data := ih e he (pjoin root e.1) pe hpe'
      exact (data_prefix_pjoin root e.1 (hn e he)).trans h1

theorem containsSub_cons_false {pat : List Char} {c : Char} {rest : List Char}
    (h : containsSub pat (c :: rest) = false) :
    pat.isPrefixOf (c :: rest) = false ∧ containsSub pat rest = false := by
  unfold containsSub at h
  exact Bool.or_eq_false_iff.mp h

theorem replaceAllF_no_occurrence (pat : List Char) :
    ∀ (s : List Char) (fuel : Nat), s.length ≤ fuel → containsSub pat s = false →
      replaceAllF pat fuel s = s := by
  intro s
  induction s with
  | nil => intro fuel _ _; cases fuel <;> rfl
  | cons c rest ih =>
    intro fuel hf hc
    obtain ⟨h1, h2⟩ := containsSub_cons_false hc
    cases fuel with
    | zero => simp at hf
    | succ fuel =>
      unfold replaceAllF
      rw [if_neg]
      · rw [ih fuel (by simpa using hf) h2]
      · intro hand
        rw [hand.1] at h1
        simp at h1

theorem replaceAll_strip (pat r : List Char) (hp : pat ≠ [])
    (hr : containsSub pat r = false) :
    ∀ fuel, (pat ++ r).length ≤ fuel → replaceAllF pat fuel (pat ++ r) = r := by
  intro fuel hf
  have hlen : 0 < pat.length := List.length_pos.mpr hp
  rw [List.length_append] at hf
  cases hcons : pat ++ r with
  | nil =>
    exact absurd (List.append_eq_nil.mp hcons).1 hp
  | cons c rest =>
    cases fuel with
    | zero => omega
    | succ fuel =>
      unfold replaceAllF
      rw [if_pos]
      · rw [← hcons]
        have hdrop : (pat ++ r).drop pat.length = r := by
          rw [List.drop_append_of_le_length (Nat.le_refl _)]
          simp
        rw [hdrop]
        apply replaceAllF_no_occurrence pat r fuel _ hr
        have : (c :: rest).length = pat.length + r.length := by
          rw [← hcons, List.length_append]
        simp only [List.length_cons] at this
        omega
      · constructor
        · rw [← hcons]
          exact List.isPrefixOf_iff_prefix.mpr (List.prefix_append pat r)
        · exact hp

/-- The display path of a file directly under the download directory is its
path relative to the download directory, provided the directory string does
not reoccur later in the path. -/
theorem displayPath_of_prefix (dd r : String) (hdd : dd ≠ "")
    (hr : containsSub dd.data r.data = false) :
    displayPath dd (dd ++ r) = r := by
  unfold displayPath replaceAllL
  have hdata : dd.data ≠ [] := by
    intro h
    exact hdd (by cases dd with | mk l => simp at h; rw [h])
  congr 1
  rw [String.data_append]
  exact replaceAll_strip dd.data r.data hdata hr _ (Nat.le_refl _)

/-! ### Claims -/

/-- C1 (counterexample): the classification is not invariant under path
normalization. With a save path containing a redundant `./` segment, the
joined live path is `/dl/./m/a` while the walk visits `/dl/m/a`; the file is
reported orphaned although its normalized absolute path equals the
normalized join of the record's save path and file name, refuting the
claimed iff. -/
theorem c1_normalization_counterexample :
    ¬ (("/dl/m/a", 5) ∈ (scanWalk
          (buildActive [⟨"/dl/./m", "t1", some ["a"]⟩]).active_files
          "/dl/" (.dir [("m", .dir [("a", .file (some 5))])])).orphaned_files
        ↔ specNormalize "/dl/m/a" ∉
            (liveJoins [⟨"/dl/./m", "t1", some ["a"]⟩]).map specNormalize) := by
  intro hiff
  have hmem : ("/dl/m/a", 5) ∈ (scanWalk
      (buildActive [⟨"/dl/./m", "t1", some ["a"]⟩]).active_files
      "/dl/" (.dir [("m", .dir [("a", .file (some 5))])])).orphaned_files := by
    rw [scanWalk_orphaned]
    simp only [walkFrom_dir, walkFrom_file, List.flatMap_cons, List.flatMap_nil]
    decide
  exact hiff.mp hmem (by decide)

/-- C1 (amended): a walked file is in the orphan list iff its exact joined
path string is not among the exact joined live path strings; equality is
plain string equality of the `os.path.join` results, with no
normalization. -/
theorem c1_orphan_classification (ts : List Torrent) (dd : String) (t : FSTree) (p : String) :
    (∃ n, (p, n) ∈ (scanWalk (buildActive ts).active_files dd t).orphaned_files)
    ↔ ((∃ sz, (p, sz) ∈ walkFrom dd t) ∧ p ∉ liveJoins ts) := by
  rw [scanWalk_orphaned]
  constructor
  · rintro ⟨n, hn⟩
    obtain ⟨e, he, heq⟩ := List.mem_map.mp hn
    obtain ⟨hw, hdec⟩ := List.mem_filter.mp he
    obtain ⟨h1, _⟩ := Prod.mk.injEq .. ▸ heq
    subst h1
    refine ⟨⟨e.2, by simpa using hw⟩, ?_⟩
    intro hl
    have : e.1 ∈ (buildActive ts).active_files := (mem_buildActive ts e.1).mpr hl
    simp [this] at hdec
  · rintro ⟨⟨sz, hw⟩, hnl⟩
    have hna : p ∉ (buildActive ts).active_files := fun h => hnl ((mem_buildActive ts p).mp h)
    exact ⟨sz.getD 0, List.mem_map.mpr ⟨(p, sz),
      List.mem_filter.mpr ⟨hw, by simpa using hna⟩, rfl⟩⟩

/-- C2 (code bug): with a nonexistent download directory, `scan_torrents`
returns the successful-looking empty result `([], 0)` instead of the `None`
error value, and `main` therefore finishes with exit code 0 instead of
aborting with a non-zero exit. -/
theorem c2_missing_rootdir_not_fatal :
    scan_torrents ⟨some [⟨"/dl", "t1", some ["a"]⟩]⟩ "/dl/" none = some ([], 0)
    ∧ mainScanExitCode (some ⟨some [⟨"/dl", "t1", some ["a"]⟩]⟩) "/dl/" none = 0 :=
  ⟨rfl, rfl⟩

/-- C3: with no torrents the live sets and warnings are all empty, and the
scan reports every walked regular file as orphaned, with its recorded
size. -/
theorem c3_zero_torrents (dd : String) (t : FSTree) :
    buildActive [] = ⟨[], [], []⟩
    ∧ (scanWalk (buildActive []).active_files dd t).orphaned_files
        = ((walkFrom dd t).map fun e => (e.1, e.2.getD 0)) := by
  refine ⟨rfl, ?_⟩
  rw [scanWalk_orphaned]
  simp [buildActive]

/-- C4: a walked file that is not live and whose size cannot be read is
still recorded in the orphan list with size 0, and a diagnostic naming the
file is recorded. -/
theorem c4_unreadable_size_still_recorded (a : List String) (dd : String) (t : FSTree)
    (p : String) (hw : (p, (none : Option Nat)) ∈ walkFrom dd t) (hna : p ∉ a) :
    (p, 0) ∈ (scanWalk a dd t).orphaned_files
    ∧ p ∈ (scanWalk a dd t).size_warnings := by
  constructor
  · rw [scanWalk_orphaned]
    exact List.mem_map.mpr ⟨(p, none), List.mem_filter.mpr ⟨hw, by simpa using hna⟩, rfl⟩
  · rw [scanWalk_warnings]
    exact List.mem_map.mpr ⟨(p, none), List.mem_filter.mpr ⟨hw, by simp [hna]⟩, rfl⟩

/-- Witness for C4 at a concrete input. -/
theorem c4_witness :
    ("/dl/b", 0) ∈ (scanWalk [] "/dl/" (.dir [("b", .file none)])).orphaned_files
    ∧ "/dl/b" ∈ (scanWalk [] "/dl/" (.dir [("b", .file none)])).size_warnings := by
  apply c4_unreadable_size_still_recorded
  · simp only [walkFrom_dir, walkFrom_file]
    decide
  · decide

/-- C5: after the sort of line 253 the orphan list is ordered by recorded
size descending, and the accumulated total equals the sum of the recorded
sizes of the listed entries (unreadable entries contributing 0). -/
theorem c5_sorted_desc_and_total (a : List String) (dd : String) (t : FSTree) :
    List.Pairwise (fun x y : String × Nat => y.2 ≤ x.2)
        (sortBySizeDesc (scanWalk a dd t).orphaned_files)
    ∧ (scanWalk a dd t).total_orphaned_size
        = ((sortBySizeDesc (scanWalk a dd t).orphaned_files).map fun e => e.2).sum := by
  constructor
  · have hs : ((scanWalk a dd t).orphaned_files.mergeSort
        fun x y : String × Nat => decide (y.2 ≤ x.2)).Pairwise
        fun x y : String × Nat => decide (y.2 ≤ x.2) :=
      List.sorted_mergeSort
        (by intro x y z hxy hyz; simp only [decide_eq_true_eq] at *; omega)
        (by intro x y; simp only [Bool.or_eq_true, decide_eq_true_eq]; omega)
        ((scanWalk a dd t).orphaned_files)
    exact hs.imp fun h => by simpa using h
  · rw [scanWalk_total]
    have hperm : List.Perm (sortBySizeDesc (scanWalk a dd t).orphaned_files)
        ((scanWalk a dd t).orphaned_files) := List.mergeSort_perm _ _
    rw [(hperm.map fun e : String × Nat => e.2).sum_eq, scanWalk_orphaned, List.map_map]
    rfl

/-- C6: a torrent whose file list cannot be fetched contributes nothing to
the live sets — the construction continues with the remaining torrents as
if the failing torrent were absent — and its name is recorded in the
warnings. -/
theorem c6_failed_torrent_skipped (ts1 ts2 : List Torrent) (t : Torrent)
    (hf : t.files = none) :
    (buildActive (ts1 ++ t :: ts2)).active_files = (buildActive (ts1 ++ ts2)).active_files
    ∧ (buildActive (ts1 ++ t :: ts2)).active_dirs = (buildActive (ts1 ++ ts2)).active_dirs
    ∧ t.name ∈ (buildActive (ts1 ++ t :: ts2)).warnings := by
  unfold buildActive
  rw [List.foldl_append, List.foldl_append, List.foldl_cons]
  rcases h1 : ts1.foldl addTorrent ⟨[], [], []⟩ with ⟨f, d, w⟩
  rw [addTorrent_none _ _ hf]
  simp only
  rw [addTorrent_foldl_eq ts2 f d (w ++ [t.name]), addTorrent_foldl_eq ts2 f d w]
  refine ⟨rfl, rfl, ?_⟩
  simp

/-- Witness for C6 at a concrete input. -/
theorem c6_witness :
    (buildActive ([⟨"/dl", "t1", some ["a"]⟩] ++ ⟨"/x", "bad", none⟩
        :: [⟨"/dl", "t3", some ["b"]⟩])).active_files
      = (buildActive ([⟨"/dl", "t1", some ["a"]⟩] ++ [⟨"/dl", "t3", some ["b"]⟩])).active_files
    ∧ (buildActive ([⟨"/dl", "t1", some ["a"]⟩] ++ ⟨"/x", "bad", none⟩
        :: [⟨"/dl", "t3", some ["b"]⟩])).active_dirs
      = (buildActive ([⟨"/dl", "t1", some ["a"]⟩] ++ [⟨"/dl", "t3", some ["b"]⟩])).active_dirs
    ∧ "bad" ∈ (buildActive ([⟨"/dl", "t1", some ["a"]⟩] ++ ⟨"/x", "bad", none⟩
        :: [⟨"/dl", "t3", some ["b"]⟩])).warnings :=
  c6_failed_torrent_skipped [⟨"/dl", "t1", some ["a"]⟩] [⟨"/dl", "t3", some ["b"]⟩]
    ⟨"/x", "bad", none⟩ rfl

/-- C7: the deletion loop attempts every entry independently; the outcome
counts `N - |F|` successes and `|F|` failures, where `F` is the set of
entries whose removal fails, and the freed bytes are the sum of the
recorded sizes of the successfully deleted entries only. -/
theorem c7_deletion_partial_failure (ok : String → Bool) (entries : List (String × Nat)) :
    deleteAll ok entries =
      ⟨entries.length - (entries.filter fun e => !ok e.1).length,
       ((entries.filter fun e => ok e.1).map fun e => e.2).sum,
       (entries.filter fun e => !ok e.1).length⟩ := by
  unfold deleteAll
  rw [deleteStep_foldl]
  have h := length_filter_add_length_filter_not (fun e : String × Nat => ok e.1) entries
  simp only [Nat.zero_add, DeletionOutcome.mk.injEq]
  refine ⟨by omega, by simp⟩

/-- C8: adding one fetchable torrent to the sequence filters out of the
orphan list exactly the entries whose path is one of the new torrent's
joined paths; nothing else changes, the filesystem being the same. -/
theorem c8_added_torrent_filters_orphans (ts : List Torrent) (t' : Torrent)
    (fl : List String) (dd : String) (t : FSTree) (hf : t'.files = some fl) :
    (scanWalk (buildActive (ts ++ [t'])).active_files dd t).orphaned_files =
      ((scanWalk (buildActive ts).active_files dd t).orphaned_files).filter
        fun e => decide (e.1 ∉ fl.map (pjoin t'.save_path)) := by
  rw [scanWalk_orphaned, scanWalk_orphaned, List.filter_map, List.filter_filter]
  congr 1
  apply List.filter_congr
  intro e _
  have h1 := mem_buildActive (ts ++ [t']) e.1
  have h2 := mem_buildActive ts e.1
  rw [liveJoins_append] at h1
  have hj : liveJoins [t'] = fl.map (pjoin t'.save_path) := by
    simp [liveJoins, hf]
  rw [hj] at h1
  simp only [Function.comp_apply]
  rw [← Bool.decide_and, decide_eq_decide]
  rw [h1, h2]
  simp only [List.mem_append]
  tauto

/-- Witness for C8 at a concrete input. -/
theorem c8_witness :
    (scanWalk (buildActive ([] ++ [⟨"/dl", "t2", some ["a"]⟩])).active_files "/dl/"
        (.dir [("a", .file (some 3)), ("b", .file (some 4))])).orphaned_files =
      ((scanWalk (buildActive []).active_files "/dl/"
        (.dir [("a", .file (some 3)), ("b", .file (some 4))])).orphaned_files).filter
        fun e => decide (e.1 ∉ ["a"].map (pjoin "/dl")) :=
  c8_added_torrent_filters_orphans [] ⟨"/dl", "t2", some ["a"]⟩ ["a"] "/dl/"
    (.dir [("a", .file (some 3)), ("b", .file (some 4))]) rfl

/-- C9 (counterexample): the report line's path is produced by removing
every occurrence of the download-directory string, not by making the path
relative to it: for the orphan `/dl/a/dl/b` under `/dl/` the report shows
`ab`, not the relative path `a/dl/b`. -/
theorem c9_replace_counterexample :
    (buildReport "/dl/" [("/dl/a/dl/b", 50)] 50).entries = [⟨50, "ab"⟩]
    ∧ "/dl/a/dl/b" = "/dl/" ++ "a/dl/b"
    ∧ ("ab" : String) ≠ "a/dl/b"
    ∧ specRelativeTo "/dl/" "/dl/a/dl/b" = "a/dl/b"
    ∧ (buildReport "/dl/" [("/dl/a/dl/b", 50)] 50).entries
        ≠ [⟨50, specRelativeTo "/dl/" "/dl/a/dl/b"⟩] := by
  refine ⟨by decide, by decide, by decide, by decide, by decide⟩

/-- C9 (amended): the written report records the download directory, the
orphan count and the total size in its header fields, then exactly one line
per orphan entry, in order, carrying the recorded size and the path with
every occurrence of the download-directory string removed; this equals the
path relative to the download directory whenever the directory string
occurs in the path only as its leading prefix. The written report is a
function of the current run only (the file is truncated, never
appended). -/
theorem c9_report_structure (dd : String) (orphans : List (String × Nat)) (total : Nat)
    (prev : Option Report) :
    (writeReportFile prev dd orphans total).downloadDir = dd
    ∧ (writeReportFile prev dd orphans total).totalFiles = orphans.length
    ∧ (writeReportFile prev dd orphans total).totalSizeBytes = total
    ∧ (writeReportFile prev dd orphans total).entries
        = (orphans.map fun e => ⟨e.2, displayPath dd e.1⟩)
    ∧ writeReportFile prev dd orphans total = buildReport dd orphans total
    ∧ (∀ p r, p = dd ++ r → dd ≠ "" → containsSub dd.data r.data = false →
        displayPath dd p = r) := by
  refine ⟨rfl, rfl, rfl, rfl, rfl, ?_⟩
  intro p r hp hdd hc
  rw [hp]
  exact displayPath_of_prefix dd r hdd hc

/-- Witness for C9's amended statement at a concrete input. -/
theorem c9_witness :
    (writeReportFile none "/dl/" [("/dl/x/y", 7)] 7).entries = [⟨7, "x/y"⟩] := by
  have h := c9_report_structure "/dl/" [("/dl/x/y", 7)] 7 none
  rw [h.2.2.2.1]
  have hp := h.2.2.2.2.2 "/dl/x/y" "x/y" (by decide) (by decide) (by decide)
  simp only [List.map_cons, List.map_nil]
  rw [hp]

/-- C10: the download directory carries a trailing separator, and every
entry of the (sorted) orphan list — the only list the deletion loop of
lines 301-310 iterates over — has the download directory as a prefix of its
path, so no deletion is attempted outside the target tree. -/
theorem c10_orphans_under_target_dir (raw_dir : String) (ts : List Torrent) (t : FSTree)
    (h : NoAbsNames t) :
    lastIsSlash (ensureSlash raw_dir) = true
    ∧ ∀ e ∈ sortBySizeDesc
        (scanWalk (buildActive ts).active_files (ensureSlash raw_dir) t).orphaned_files,
        (ensureSlash raw_dir).data <+: e.1.data := by
  refine ⟨lastIsSlash_ensureSlash raw_dir, ?_⟩
  intro e he
  have he' : e ∈ (scanWalk (buildActive ts).active_files
      (ensureSlash raw_dir) t).orphaned_files :=
    (List.mergeSort_perm _ _).mem_iff.mp he
  rw [scanWalk_orphaned] at he'
  obtain ⟨w, hw, heq⟩ := List.mem_map.mp he'
  obtain ⟨hwalk, _⟩ := List.mem_filter.mp hw
  have hpre := prefix_of_walkFrom t h (ensureSlash raw_dir) w hwalk
  subst heq
  exact hpre

/-- Witness for C10 at a concrete input: the single orphan entry of a
one-file tree lies under the slash-terminated target directory. -/
theorem c10_witness :
    lastIsSlash (ensureSlash "/dl") = true
    ∧ (ensureSlash "/dl").data <+: ("/dl/a" : String).data := by
  have h := c10_orphans_under_target_dir "/dl" [] (.dir [("a", .file (some 1))])
    (NoAbsNames.dir _ (by decide)
      (by
        intro e he
        rw [List.mem_singleton] at he
        subst he
        exact NoAbsNames.file _))
  refine ⟨h.1, h.2 ("/dl/a", 1) ?_⟩
  have hor : (scanWalk (buildActive []).active_files (ensureSlash "/dl")
      (.dir [("a", .file (some 1))])).orphaned_files = [("/dl/a", 1)] := by
    rw [scanWalk_orphaned]
    simp only [walkFrom_dir, walkFrom_file, List.flatMap_cons, List.flatMap_nil]
    decide
  rw [hor]
  exact (List.mergeSort_perm _ _).mem_iff.mpr (by decide)

end OrphanCleaner
